import Mathlib

/- Verification of the Semantic Retrieval and Active-Learning Knowledge
Curation subsystem of src/app.py.  External collaborators (the
SentenceTransformer embedding provider, the sklearn cosine_similarity
routine and the sklearn KMeans clustering routine) are modelled as
function parameters returning Option: a none result stands for the
collaborator raising an exception at that call site. -/

/-- Embedding vectors, with exact rational coordinates. -/
abbrev Vec := List ℚ

/-- State of the retrieval index: the module level knowledge_base list
(aliased by ActiveLearningSystem.knowledge_base, which is the same list
object) and the module level knowledge_embeddings. -/
structure IndexState where
  knowledge_base : List String
  knowledge_embeddings : List Vec

/-- Model of ActiveLearningSystem.update_knowledge_base (src/app.py lines
130 to 133).  The Python method first extends the shared knowledge_base
list in place and only then reassigns the global knowledge_embeddings to a
fresh encoding of the whole extended list.  The Bool is true when the
embedding call succeeded; when encode returns none (a raised exception)
the returned state is what the caller observes after the exception
propagates: entry list already extended, embeddings untouched. -/
def update_knowledge_base (encode : List String → Option (List Vec))
    (s : IndexState) (new_entries : List String) : Bool × IndexState :=
  let extended := s.knowledge_base ++ new_entries
  match encode extended with
  | some embs => (true, ⟨extended, embs⟩)
  | none => (false, ⟨extended, s.knowledge_embeddings⟩)

/-- Trace of index states observed after each successive
update_knowledge_base call of a sequence. -/
def run_updates (encode : List String → Option (List Vec)) :
    IndexState → List (List String) → List IndexState
  | _, [] => []
  | s, b :: bs =>
    let s2 := (update_knowledge_base encode s b).2
    s2 :: run_updates encode s2 bs

/-- Pairing invariant of the retrieval index: one embedding per entry. -/
def index_invariant (s : IndexState) : Prop :=
  s.knowledge_base.length = s.knowledge_embeddings.length

instance (s : IndexState) : Decidable (index_invariant s) :=
  inferInstanceAs (Decidable (_ = _))

/-- Model of ActiveLearningSystem.evaluate_certainty (src/app.py lines 102
to 103): len(response) > 50.  The query argument is accepted and ignored,
as in the source. -/
def evaluate_certainty (query response : String) : Bool :=
  decide (50 < response.length)

/-- Model of ActiveLearningSystem.add_uncertain_query (src/app.py lines
105 to 106). -/
def add_uncertain_query (uncertain_queries : List (String × String))
    (query response : String) : List (String × String) :=
  uncertain_queries ++ [(query, response)]

/-- The certainty gate inside generate_response (src/app.py lines 248 to
249): if not evaluate_certainty(query, raw_response) then
add_uncertain_query(query, raw_response), otherwise nothing. -/
def generate_response_uncertainty_step
    (uncertain_queries : List (String × String))
    (query raw_response : String) : List (String × String) :=
  if evaluate_certainty query raw_response then uncertain_queries
  else add_uncertain_query uncertain_queries query raw_response

/-- Index comparison realising numpy argsort on the similarity row:
ascending by value, equal values kept in position order (numpy uses an
insertion sort, which is stable, on the small arrays involved here). -/
def leIdx (sims : List ℚ) (i j : ℕ) : Prop :=
  sims.getD i 0 < sims.getD j 0 ∨ (sims.getD i 0 = sims.getD j 0 ∧ i ≤ j)

instance (sims : List ℚ) : DecidableRel (leIdx sims) := fun i j =>
  inferInstanceAs
    (Decidable (sims.getD i 0 < sims.getD j 0 ∨
      (sims.getD i 0 = sims.getD j 0 ∧ i ≤ j)))

/-- Value of similarities.argsort(): all positions of the row, sorted
ascending by similarity. -/
def argsort (sims : List ℚ) : List ℕ :=
  List.insertionSort (leIdx sims) (List.range sims.length)

/-- Python tail slice a[-k:] for integer k, as in
similarities.argsort()[-top_k:]: for positive k the last min(k, n)
elements; for k = 0 the whole list, because -0 is 0 and a[0:] is a; for
negative k the slice a[(-k):]. -/
def pyTail (k : ℤ) (l : List ℕ) : List ℕ :=
  if 0 < k then l.drop (l.length - k.toNat)
  else if k = 0 then l
  else l.drop (-k).toNat

/-- Value of top_indices in retrieve_relevant_context (src/app.py line
218): similarities.argsort()[-top_k:][::-1]. -/
def topIndices (sims : List ℚ) (top_k : ℤ) : List ℕ :=
  (pyTail top_k (argsort sims)).reverse

/-- Python list comprehension [knowledge_base[i] for i in top_indices]; a
position out of range raises IndexError, modelled as none. -/
def lookup_all (knowledge_base : List String) : List ℕ → Option (List String)
  | [] => some []
  | i :: is =>
    match knowledge_base.get? i with
    | none => none
    | some t =>
      match lookup_all knowledge_base is with
      | none => none
      | some ts => some (t :: ts)

/-- Model of retrieve_relevant_context (src/app.py lines 214 to 222).  The
sentence_model.encode call on the query and the sklearn cosine_similarity
call are external collaborators passed as parameters; a none result at any
step stands for a raised exception, caught by the try/except wrapping the
whole body, which then returns the empty list. -/
def retrieve_relevant_context (encode : String → Option Vec)
    (cosine_similarity : Vec → List Vec → Option (List ℚ))
    (knowledge_base : List String) (knowledge_embeddings : List Vec)
    (query : String) (top_k : ℤ) : List String :=
  match encode query with
  | none => []
  | some query_embedding =>
    match cosine_similarity query_embedding knowledge_embeddings with
    | none => []
    | some similarities =>
      match lookup_all knowledge_base (topIndices similarities top_k) with
      | none => []
      | some ctx => ctx

/-- Squared Euclidean distance between two vectors.  The source compares
values of np.linalg.norm(e - c); comparisons of the norm coincide with
comparisons of its square, which stays inside exact rational
arithmetic. -/
def sqDist (a b : Vec) : ℚ :=
  ((a.zip b).map (fun p => (p.1 - p.2) ^ 2)).sum

/-- Position of the first minimum of a list, as np.argmin. -/
def minIdx : List ℚ → ℕ
  | [] => 0
  | [_] => 0
  | x :: y :: rest =>
    if x ≤ (y :: rest).getD (minIdx (y :: rest)) 0 then 0
    else minIdx (y :: rest) + 1

/-- Model of ActiveLearningSystem.cluster_uncertain_queries (src/app.py
lines 108 to 128).  The batch encode call and the sklearn KMeans fit are
external collaborators passed as parameters; kmeans yields the fitted
labels_ (one label per input point) and cluster_centers_, and none stands
for a raised exception, which this method does not catch.  n_clusters is
an integer, as in Python. -/
def cluster_uncertain_queries (encode : List String → Option (List Vec))
    (kmeans : ℤ → List Vec → Option (List ℕ × List Vec))
    (uncertain_queries : List (String × String)) (n_clusters : ℤ) :
    Option (List (String × String)) :=
  if (uncertain_queries.length : ℤ) < n_clusters then some uncertain_queries
  else
    match encode (uncertain_queries.map Prod.fst) with
    | none => none
    | some embeddings =>
      match kmeans n_clusters embeddings with
      | none => none
      | some (labels, centers) =>
        some ((List.range n_clusters.toNat).map (fun i =>
          let cluster_indices :=
            (List.range labels.length).filter (fun j => labels.getD j 0 == i)
          let distances := cluster_indices.map
            (fun j => sqDist (embeddings.getD j []) (centers.getD i []))
          let representative_index := cluster_indices.getD (minIdx distances) 0
          uncertain_queries.getD representative_index ("", "")))

/-- State of ActiveLearningSystem relevant to curation. -/
structure ALState where
  uncertain_queries : List (String × String)

/-- One curation pass viewed as a state transformer.  The body of
cluster_uncertain_queries only reads self.uncertain_queries (the list
comprehension over it copies, numpy fancy indexing copies, and there is no
assignment to the attribute), so the state component comes back
unchanged. -/
def cluster_pass (encode : List String → Option (List Vec))
    (kmeans : ℤ → List Vec → Option (List ℕ × List Vec))
    (s : ALState) (n_clusters : ℤ) :
    Option (List (String × String)) × ALState :=
  (cluster_uncertain_queries encode kmeans s.uncertain_queries n_clusters, s)

/-- C1 counterexample: starting from an empty index, appending one text
while the embedding provider raises leaves the index with one entry and
zero embeddings, so entry count after the call differs from before and the
append is not all-or-nothing. -/
theorem append_not_all_or_nothing_cex :
    (update_knowledge_base (fun _ => none) ⟨[], []⟩ ["extra entry"]).1 = false ∧
    (update_knowledge_base (fun _ => none) ⟨[], []⟩
        ["extra entry"]).2.knowledge_base.length = 1 ∧
    (update_knowledge_base (fun _ => none) ⟨[], []⟩
        ["extra entry"]).2.knowledge_embeddings.length = 0 := by
  refine ⟨rfl, rfl, rfl⟩

/-- C1 (amended): when the embedding call inside update_knowledge_base
raises, the embedding count is what it was before the call, but the entry
list has already been extended by the new texts; the append is not rolled
back. -/
theorem append_failure_extends_entries_keeps_embeddings
    (encode : List String → Option (List Vec)) (s : IndexState)
    (new_entries : List String)
    (hfail : encode (s.knowledge_base ++ new_entries) = none) :
    (update_knowledge_base encode s new_entries).1 = false ∧
    (update_knowledge_base encode s new_entries).2.knowledge_base =
      s.knowledge_base ++ new_entries ∧
    (update_knowledge_base encode s new_entries).2.knowledge_embeddings =
      s.knowledge_embeddings := by
  simp [update_knowledge_base, hfail]

/-- Witness instantiating the amended C1 theorem at a concrete failing
provider. -/
theorem append_failure_extends_entries_keeps_embeddings_witness :
    (update_knowledge_base (fun _ => none) ⟨["a"], [[1]]⟩ ["b"]).1 = false ∧
    (update_knowledge_base (fun _ => none) ⟨["a"], [[1]]⟩
        ["b"]).2.knowledge_base = ["a"] ++ ["b"] ∧
    (update_knowledge_base (fun _ => none) ⟨["a"], [[1]]⟩
        ["b"]).2.knowledge_embeddings = [[1]] :=
  append_failure_extends_entries_keeps_embeddings
    (fun _ => none) ⟨["a"], [[1]]⟩ ["b"] rfl

/-- C3 counterexample: a one-call sequence whose embedding call raises
leaves a state violating the pairing invariant, so the invariant does not
hold after calls in which the provider raised. -/
theorem invariant_broken_by_failed_append_cex :
    ¬ index_invariant
      ((run_updates (fun _ => none) ⟨[], []⟩ [["x"]]).getD 0 ⟨[], []⟩) := by
  decide

/-- C3 (amended): for every sequence of appends during which every
embedding call succeeds and returns one vector per encoded entry, the
pairing invariant holds after each call. -/
theorem invariant_preserved_by_successful_appends
    (encode : List String → Option (List Vec))
    (henc : ∀ xs, ∃ es, encode xs = some es ∧ es.length = xs.length)
    (s : IndexState) (batches : List (List String)) :
    ∀ t ∈ run_updates encode s batches, index_invariant t := by
  induction batches generalizing s with
  | nil => intro t ht; simp [run_updates] at ht
  | cons b bs ih =>
    intro t ht
    simp only [run_updates, List.mem_cons] at ht
    obtain ⟨es, hes, hlen⟩ := henc (s.knowledge_base ++ b)
    rcases ht with rfl | ht
    · simp [update_knowledge_base, hes, index_invariant, hlen]
    · exact ih ((update_knowledge_base encode s b).2) t ht

/-- Witness instantiating the C3 theorem at a concrete always-succeeding
provider and a one-batch sequence. -/
theorem invariant_preserved_by_successful_appends_witness :
    index_invariant ⟨["a"], [[]]⟩ :=
  invariant_preserved_by_successful_appends
    (fun xs => some (xs.map (fun _ => [])))
    (fun xs => ⟨xs.map (fun _ => []), rfl, by simp⟩)
    ⟨[], []⟩ [["a"]] ⟨["a"], [[]]⟩
    (by rw [show run_updates (fun xs => some (xs.map (fun _ => ([] : Vec))))
          ⟨[], []⟩ [["a"]] = [⟨["a"], [[]]⟩] from rfl]
        exact List.mem_singleton.mpr rfl)

/-- C5: when the queue is shorter than n_clusters, the clustering method
returns the queue itself, untouched and in order, whatever the embedding
provider and clustering routine would do (they are never consulted, so a
failing provider cannot make the call raise). -/
theorem clustering_short_circuit
    (encode : List String → Option (List Vec))
    (kmeans : ℤ → List Vec → Option (List ℕ × List Vec))
    (uncertain_queries : List (String × String)) (n_clusters : ℤ)
    (hshort : (uncertain_queries.length : ℤ) < n_clusters) :
    cluster_uncertain_queries encode kmeans uncertain_queries n_clusters =
      some uncertain_queries := by
  simp [cluster_uncertain_queries, hshort]

/-- Witness instantiating the C5 theorem with everywhere-failing
collaborators on a one-element queue and five clusters. -/
theorem clustering_short_circuit_witness :
    cluster_uncertain_queries (fun _ => none) (fun _ _ => none)
      [("q", "a")] 5 = some [("q", "a")] :=
  clustering_short_circuit _ _ _ _ (by decide)

/-- C9: the (query, answer) pair is appended to the uncertainty queue
exactly when the answer is at most 50 characters long; for longer answers
the queue is left unchanged. -/
theorem uncertainty_queue_gate
    (uncertain_queries : List (String × String)) (query raw_response : String) :
    (generate_response_uncertainty_step uncertain_queries query raw_response =
        add_uncertain_query uncertain_queries query raw_response ↔
      raw_response.length ≤ 50) ∧
    (50 < raw_response.length →
      generate_response_uncertainty_step uncertain_queries query raw_response =
        uncertain_queries) := by
  refine ⟨⟨?_, ?_⟩, ?_⟩
  · intro h
    by_contra hlen
    rw [not_le] at hlen
    have hev : evaluate_certainty query raw_response = true := by
      simp [evaluate_certainty, hlen]
    simp only [generate_response_uncertainty_step, if_pos hev] at h
    have hl := congrArg List.length h
    simp [add_uncertain_query] at hl
  · intro hle
    have hev : evaluate_certainty query raw_response = false := by
      simp [evaluate_certainty, Nat.not_lt.mpr hle]
    simp [generate_response_uncertainty_step, hev]
  · intro hgt
    have hev : evaluate_certainty query raw_response = true := by
      simp [evaluate_certainty, hgt]
    simp [generate_response_uncertainty_step, hev]

/-- Witness instantiating the C9 theorem at a concrete short answer. -/
theorem uncertainty_queue_gate_witness :
    (generate_response_uncertainty_step [] "q" "short" =
        add_uncertain_query [] "q" "short" ↔
      ("short" : String).length ≤ 50) ∧
    (50 < ("short" : String).length →
      generate_response_uncertainty_step [] "q" "short" = []) :=
  uncertainty_queue_gate [] "q" "short"

/-- C10: a curation pass leaves the uncertainty queue exactly as it was,
and a second identical pass therefore produces the same representatives:
the queue is never drained by clustering. -/
theorem curation_pass_preserves_queue
    (encode : List String → Option (List Vec))
    (kmeans : ℤ → List Vec → Option (List ℕ × List Vec))
    (s : ALState) (n_clusters : ℤ) :
    (cluster_pass encode kmeans s n_clusters).2.uncertain_queries =
      s.uncertain_queries ∧
    (cluster_pass encode kmeans
        ((cluster_pass encode kmeans s n_clusters).2) n_clusters).1 =
      (cluster_pass encode kmeans s n_clusters).1 :=
  ⟨rfl, rfl⟩

lemma leIdx_total (sims : List ℚ) : ∀ i j, leIdx sims i j ∨ leIdx sims j i := by
  intro i j
  rcases lt_trichotomy (sims.getD i 0) (sims.getD j 0) with h | h | h
  · exact Or.inl (Or.inl h)
  · rcases Nat.le_total i j with hij | hij
    · exact Or.inl (Or.inr ⟨h, hij⟩)
    · exact Or.inr (Or.inr ⟨h.symm, hij⟩)
  · exact Or.inr (Or.inl h)

lemma leIdx_trans (sims : List ℚ) :
    ∀ i j m, leIdx sims i j → leIdx sims j m → leIdx sims i m := by
  intro i j m hij hjm
  rcases hij with h1 | ⟨h1, h1b⟩
  · rcases hjm with h2 | ⟨h2, _⟩
    · exact Or.inl (h1.trans h2)
    · exact Or.inl (by rw [← h2]; exact h1)
  · rcases hjm with h2 | ⟨h2, h2b⟩
    · exact Or.inl (by rw [h1]; exact h2)
    · exact Or.inr ⟨h1.trans h2, h1b.trans h2b⟩

lemma argsort_perm (sims : List ℚ) :
    List.Perm (argsort sims) (List.range sims.length) :=
  List.perm_insertionSort _ _

lemma argsort_sorted (sims : List ℚ) :
    List.Sorted (leIdx sims) (argsort sims) := by
  haveI : IsTotal ℕ (leIdx sims) := ⟨leIdx_total sims⟩
  haveI : IsTrans ℕ (leIdx sims) := ⟨leIdx_trans sims⟩
  exact List.sorted_insertionSort _ _

lemma argsort_nodup (sims : List ℚ) : (argsort sims).Nodup :=
  (argsort_perm sims).symm.nodup (List.nodup_range _)

lemma argsort_length (sims : List ℚ) : (argsort sims).length = sims.length := by
  rw [argsort, List.length_insertionSort, List.length_range]

lemma pyTail_sublist (k : ℤ) (l : List ℕ) : List.Sublist (pyTail k l) l := by
  unfold pyTail
  split
  · exact List.drop_sublist _ _
  · split
    · exact List.Sublist.refl _
    · exact List.drop_sublist _ _

lemma topIndices_sorted (sims : List ℚ) (k : ℤ) :
    List.Pairwise (fun i j => leIdx sims j i) (topIndices sims k) := by
  have h1 : List.Pairwise (leIdx sims) (pyTail k (argsort sims)) :=
    (argsort_sorted sims).sublist (pyTail_sublist k _)
  exact List.pairwise_reverse.mpr h1

lemma topIndices_nodup (sims : List ℚ) (k : ℤ) : (topIndices sims k).Nodup := by
  have h : (pyTail k (argsort sims)).Nodup :=
    (pyTail_sublist k _).nodup (argsort_nodup sims)
  exact List.nodup_reverse.mpr h

lemma topIndices_mem_lt (sims : List ℚ) (k : ℤ) :
    ∀ i ∈ topIndices sims k, i < sims.length := by
  intro i hi
  rw [topIndices, List.mem_reverse] at hi
  have h2 : i ∈ argsort sims := (pyTail_sublist k _).subset hi
  have h3 : i ∈ List.range sims.length := (argsort_perm sims).subset h2
  exact List.mem_range.mp h3

lemma topIndices_length_pos (sims : List ℚ) (k : ℤ) (hk : 0 < k) :
    (topIndices sims k).length = min k.toNat sims.length := by
  rw [topIndices, List.length_reverse, pyTail, if_pos hk, List.length_drop,
    argsort_length]
  omega

lemma topIndices_perm_of_ge (sims : List ℚ) (k : ℤ) (hk : 0 < k)
    (hge : sims.length ≤ k.toNat) :
    List.Perm (topIndices sims k) (List.range sims.length) := by
  rw [topIndices, pyTail, if_pos hk]
  have h0 : (argsort sims).length - k.toNat = 0 := by rw [argsort_length]; omega
  rw [h0, List.drop_zero]
  exact ((argsort sims).reverse_perm).trans (argsort_perm sims)

lemma lookup_all_eq_map (kb : List String) :
    ∀ l : List ℕ, (∀ i ∈ l, i < kb.length) →
      lookup_all kb l = some (l.map (fun i => kb.getD i "")) := by
  intro l
  induction l with
  | nil => intro _; rfl
  | cons i is ih =>
    intro h
    have hi : i < kb.length := h i (List.mem_cons_self i is)
    have hget : kb.get? i = some (kb.getD i "") := by
      rw [List.get?_eq_getElem?, List.getElem?_eq_getElem hi,
        List.getD_eq_getElem kb "" hi]
    rw [lookup_all, hget, ih (fun j hj => h j (List.mem_cons_of_mem i hj))]
    rfl

lemma map_getD_range (kb : List String) :
    (List.range kb.length).map (fun i => kb.getD i "") = kb := by
  apply List.ext_getElem
  · simp
  · intro i h1 h2
    simp only [List.getElem_map, List.getElem_range]
    exact List.getD_eq_getElem kb "" h2

/-- C2 counterexample: two entries with equal similarity to the query; the
ranking of retrieve_relevant_context places entry 1 before entry 0, so the
lower id does not come first on ties. -/
theorem tie_break_lowest_id_cex : topIndices [(1 : ℚ), 1] 2 = [1, 0] := by
  decide

/-- C2 (amended): on equal similarity the entry with the higher id
(later-added) always ranks first: everywhere in top_indices, if position i
precedes position j and the two similarities are equal, then j < i. -/
theorem tie_break_highest_id_first (sims : List ℚ) (top_k : ℤ) :
    List.Pairwise (fun i j => sims.getD i 0 = sims.getD j 0 → j < i)
      (topIndices sims top_k) := by
  have h1 := topIndices_sorted sims top_k
  have h2 : List.Pairwise (fun i j : ℕ => i ≠ j) (topIndices sims top_k) :=
    topIndices_nodup sims top_k
  refine (h1.and h2).imp ?_
  rintro i j ⟨hle, hne⟩ heq
  rcases hle with hlt | ⟨_, hji⟩
  · rw [heq] at hlt
    exact absurd hlt (lt_irrefl _)
  · exact lt_of_le_of_ne hji (Ne.symm hne)

/-- Witness instantiating the amended C2 theorem on a concrete tied row. -/
theorem tie_break_highest_id_first_witness :
    List.Pairwise
      (fun i j => List.getD [(1 : ℚ), 1] i 0 = List.getD [(1 : ℚ), 1] j 0 → j < i)
      (topIndices [(1 : ℚ), 1] 2) :=
  tie_break_highest_id_first [(1 : ℚ), 1] 2

/-- C6: with a successful embedding and similarity computation over a
non-empty index whose similarity row matches the entry list, and positive
k, search returns exactly the texts at top_indices: min(k, n) entries,
ranked by non-increasing similarity, and all entries (a permutation of the
knowledge base) whenever k is at least the entry count. -/
theorem search_top_k_spec (encode : String → Option Vec)
    (cosine_similarity : Vec → List Vec → Option (List ℚ))
    (kb : List String) (embs : List Vec) (query : String) (top_k : ℤ)
    (qe : Vec) (sims : List ℚ)
    (henc : encode query = some qe)
    (hsim : cosine_similarity qe embs = some sims)
    (hlen : sims.length = kb.length)
    (hkb : 0 < kb.length)
    (hk : 0 < top_k) :
    retrieve_relevant_context encode cosine_similarity kb embs query top_k =
      (topIndices sims top_k).map (fun i => kb.getD i "") ∧
    (retrieve_relevant_context encode cosine_similarity kb embs query
        top_k).length = min top_k.toNat kb.length ∧
    List.Pairwise (fun i j => sims.getD j 0 ≤ sims.getD i 0)
      (topIndices sims top_k) ∧
    (kb.length ≤ top_k.toNat →
      List.Perm
        (retrieve_relevant_context encode cosine_similarity kb embs query top_k)
        kb) := by
  have hmem : ∀ i ∈ topIndices sims top_k, i < kb.length := by
    intro i hi
    have := topIndices_mem_lt sims top_k i hi
    omega
  have hlook := lookup_all_eq_map kb (topIndices sims top_k) hmem
  have hret : retrieve_relevant_context encode cosine_similarity kb embs query
      top_k = (topIndices sims top_k).map (fun i => kb.getD i "") := by
    simp only [retrieve_relevant_context, henc, hsim, hlook]
  refine ⟨hret, ?_, ?_, ?_⟩
  · rw [hret, List.length_map, topIndices_length_pos sims top_k hk, hlen]
  · refine (topIndices_sorted sims top_k).imp ?_
    intro i j hji
    rcases hji with h | ⟨h, _⟩
    · exact le_of_lt h
    · exact le_of_eq h
  · intro hge
    rw [hret]
    have hperm := (topIndices_perm_of_ge sims top_k hk (by omega)).map
      (fun i => kb.getD i "")
    rw [hlen, map_getD_range kb] at hperm
    exact hperm

/-- Witness instantiating the C6 theorem on a concrete two-entry index. -/
theorem search_top_k_spec_witness :
    retrieve_relevant_context (fun _ => some [1]) (fun _ _ => some [1, 0])
        ["a", "b"] [[1], [0]] "q" 1 =
      (topIndices [(1 : ℚ), 0] 1).map (fun i => List.getD ["a", "b"] i "") ∧
    (retrieve_relevant_context (fun _ => some [1]) (fun _ _ => some [1, 0])
        ["a", "b"] [[1], [0]] "q" 1).length = min (1 : ℤ).toNat 2 ∧
    List.Pairwise
      (fun i j => List.getD [(1 : ℚ), 0] j 0 ≤ List.getD [(1 : ℚ), 0] i 0)
      (topIndices [(1 : ℚ), 0] 1) ∧
    ((["a", "b"] : List String).length ≤ (1 : ℤ).toNat →
      List.Perm
        (retrieve_relevant_context (fun _ => some [1]) (fun _ _ => some [1, 0])
          ["a", "b"] [[1], [0]] "q" 1)
        ["a", "b"]) :=
  search_top_k_spec (fun _ => some [1]) (fun _ _ => some [1, 0])
    ["a", "b"] [[1], [0]] "q" 1 [1] [1, 0] rfl rfl rfl (by decide) (by decide)

/-- C7: if any internal step of retrieve_relevant_context raises (the query
embedding call, the similarity computation, or an out-of-range entry
lookup on a corrupted index), the function returns the empty list instead
of propagating the exception. -/
theorem retrieve_degrades_to_empty_on_failure (encode : String → Option Vec)
    (cosine_similarity : Vec → List Vec → Option (List ℚ))
    (kb : List String) (embs : List Vec) (query : String) (top_k : ℤ) :
    (encode query = none →
      retrieve_relevant_context encode cosine_similarity kb embs query top_k
        = []) ∧
    (∀ qe, encode query = some qe → cosine_similarity qe embs = none →
      retrieve_relevant_context encode cosine_similarity kb embs query top_k
        = []) ∧
    (∀ qe sims, encode query = some qe → cosine_similarity qe embs = some sims →
      lookup_all kb (topIndices sims top_k) = none →
      retrieve_relevant_context encode cosine_similarity kb embs query top_k
        = []) := by
  refine ⟨?_, ?_, ?_⟩
  · intro h
    simp [retrieve_relevant_context, h]
  · intro qe h1 h2
    simp [retrieve_relevant_context, h1, h2]
  · intro qe sims h1 h2 h3
    simp [retrieve_relevant_context, h1, h2, h3]

/-- Witness instantiating the C7 theorem at a concrete raising provider. -/
theorem retrieve_degrades_to_empty_on_failure_witness :
    retrieve_relevant_context (fun _ => none) (fun _ _ => none) ["a"] [] "q" 2
      = [] :=
  (retrieve_degrades_to_empty_on_failure (fun _ => none) (fun _ _ => none)
    ["a"] [] "q" 2).1 rfl

/-- C8 counterexample: with k = 0 (non-positive), retrieve_relevant_context
neither raises nor returns an error value; it completes and returns both
entries of a two-entry index, because the Python slice [-0:] keeps the
whole argsort. -/
theorem non_positive_k_no_fail_fast_cex :
    retrieve_relevant_context (fun _ => some [1]) (fun _ _ => some [1, 2])
      ["a", "b"] [[1], [2]] "q" 0 = ["b", "a"] := by
  decide

/-- C8 (amended): a non-positive n_clusters always reaches the clustering
routine (the short-circuit cannot fire because the queue length is never
negative) and the call raises there, given that the clustering routine
rejects non-positive cluster counts as sklearn KMeans does;
retrieve_relevant_context, by contrast, performs no validation of k: with
k = 0 it completes and returns the full index. -/
theorem invalid_argument_behaviour :
    (∀ (encode : List String → Option (List Vec))
        (kmeans : ℤ → List Vec → Option (List ℕ × List Vec))
        (uncertain_queries : List (String × String)) (n_clusters : ℤ),
      n_clusters ≤ 0 →
      (∀ d, kmeans n_clusters d = none) →
      cluster_uncertain_queries encode kmeans uncertain_queries n_clusters
        = none) ∧
    (∀ sims : List ℚ, (topIndices sims 0).length = sims.length) := by
  constructor
  · intro encode kmeans q n hn hkm
    have hcond : ¬ ((q.length : ℤ) < n) := by
      have h0 : (0 : ℤ) ≤ (q.length : ℤ) := Int.ofNat_nonneg _
      omega
    rw [cluster_uncertain_queries, if_neg hcond]
    cases henc : encode (q.map Prod.fst) with
    | none => rfl
    | some embeddings => simp [hkm embeddings]
  · intro sims
    simp [topIndices, pyTail, argsort_length]

/-- Witness instantiating the amended C8 theorem. -/
theorem invalid_argument_behaviour_witness :
    cluster_uncertain_queries (fun _ => none) (fun _ _ => none) [] (-1)
      = none ∧
    (topIndices [(1 : ℚ), 2] 0).length = 2 :=
  ⟨invalid_argument_behaviour.1 (fun _ => none) (fun _ _ => none) [] (-1)
      (by decide) (fun _ => rfl),
    invalid_argument_behaviour.2 [(1 : ℚ), 2]⟩

lemma getD_map_range {α : Type} (m : ℕ) (f : ℕ → α) (d : α) (i : ℕ)
    (hi : i < m) : ((List.range m).map f).getD i d = f i := by
  rw [List.getD_eq_getElem _ d (by simpa using hi)]
  simp

lemma getD_map_of_lt {α β : Type} (f : α → β) (l : List α) (db : β) (da : α)
    (i : ℕ) (hi : i < l.length) : (l.map f).getD i db = f (l.getD i da) := by
  rw [List.getD_eq_getElem _ _ (by simpa using hi), List.getD_eq_getElem _ _ hi]
  simp

lemma minIdx_lt : ∀ l : List ℚ, 0 < l.length → minIdx l < l.length := by
  intro l
  induction l with
  | nil => intro h; simp at h
  | cons x xs ih =>
    cases xs with
    | nil => intro _; simp [minIdx]
    | cons y rest =>
      intro _
      have hunf : minIdx (x :: y :: rest) =
          if x ≤ (y :: rest).getD (minIdx (y :: rest)) 0 then 0
          else minIdx (y :: rest) + 1 := rfl
      rw [hunf]
      split
      · simp
      · have h2 := ih (by simp)
        simp only [List.length_cons] at h2 ⊢
        omega

lemma minIdx_le : ∀ l : List ℚ, ∀ j, j < l.length →
    l.getD (minIdx l) 0 ≤ l.getD j 0 := by
  intro l
  induction l with
  | nil => intro j hj; simp at hj
  | cons x xs ih =>
    cases xs with
    | nil =>
      intro j hj
      simp only [List.length_cons, List.length_nil] at hj
      interval_cases j
      simp [minIdx]
    | cons y rest =>
      intro j hj
      have hunf : minIdx (x :: y :: rest) =
          if x ≤ (y :: rest).getD (minIdx (y :: rest)) 0 then 0
          else minIdx (y :: rest) + 1 := rfl
      rw [hunf]
      split
      case isTrue hx =>
        cases j with
        | zero => exact le_refl _
        | succ j2 =>
          rw [List.getD_cons_zero, List.getD_cons_succ]
          exact hx.trans (ih j2 (by simpa using hj))
      case isFalse hx =>
        cases j with
        | zero =>
          rw [List.getD_cons_succ, List.getD_cons_zero]
          exact le_of_lt (not_le.mp hx)
        | succ j2 =>
          rw [List.getD_cons_succ, List.getD_cons_succ]
          exact ih j2 (by simpa using hj)


lemma filter_rep_spec (CI : List ℕ) (g : ℕ → ℚ) (hne : 0 < CI.length) :
    CI.getD (minIdx (CI.map g)) 0 ∈ CI ∧
    ∀ j ∈ CI, g (CI.getD (minIdx (CI.map g)) 0) ≤ g j := by
  have hdlen : (CI.map g).length = CI.length := List.length_map _ _
  have hmlt : minIdx (CI.map g) < CI.length := by
    rw [← hdlen]
    exact minIdx_lt _ (by rw [hdlen]; exact hne)
  constructor
  · rw [List.getD_eq_getElem _ _ hmlt]
    exact List.getElem_mem hmlt
  · intro j hj
    obtain ⟨⟨idx, hidx⟩, hidxeq⟩ := List.get_of_mem hj
    have hidx2 : idx < (CI.map g).length := by rw [hdlen]; exact hidx
    have hmin := minIdx_le (CI.map g) idx hidx2
    have e1 : (CI.map g).getD (minIdx (CI.map g)) 0 =
        g (CI.getD (minIdx (CI.map g)) 0) :=
      getD_map_of_lt g CI 0 0 _ hmlt
    have e2 : (CI.map g).getD idx 0 = g j := by
      rw [getD_map_of_lt g CI 0 0 idx hidx, List.getD_eq_getElem _ _ hidx,
        show CI[idx] = j from hidxeq]
    rw [e1, e2] at hmin
    exact hmin

/-- C4: when the queue holds at least n_clusters cases, and the embedding
and clustering collaborators succeed with one embedding per case, one
label per case and every cluster inhabited (as sklearn KMeans guarantees),
the method returns exactly n_clusters cases, in cluster-index order, the
case at position i being a member of cluster i whose embedding minimises
the distance to the centroid of cluster i over that cluster (squared
Euclidean distance orders exactly as Euclidean distance). -/
theorem select_representatives_spec
    (encode : List String → Option (List Vec))
    (kmeans : ℤ → List Vec → Option (List ℕ × List Vec))
    (queue : List (String × String)) (n : ℤ)
    (embeddings : List Vec) (labels : List ℕ) (centers : List Vec)
    (hpos : 0 < n)
    (hge : n ≤ (queue.length : ℤ))
    (henc : encode (queue.map Prod.fst) = some embeddings)
    (hkm : kmeans n embeddings = some (labels, centers))
    (hlab : labels.length = queue.length)
    (hcover : ∀ i, i < n.toNat → ∃ j, j < labels.length ∧ labels.getD j 0 = i) :
    ∃ reps, cluster_uncertain_queries encode kmeans queue n = some reps ∧
      reps.length = n.toNat ∧
      ∀ i, i < n.toNat →
        ∃ ri, ri < queue.length ∧ labels.getD ri 0 = i ∧
          reps.getD i ("", "") = queue.getD ri ("", "") ∧
          ∀ j, j < queue.length → labels.getD j 0 = i →
            sqDist (embeddings.getD ri []) (centers.getD i []) ≤
              sqDist (embeddings.getD j []) (centers.getD i []) := by
  have hcond : ¬ ((queue.length : ℤ) < n) := by omega
  refine ⟨(List.range n.toNat).map (fun i =>
      queue.getD
        (((List.range labels.length).filter
            (fun j => labels.getD j 0 == i)).getD
          (minIdx (((List.range labels.length).filter
              (fun j => labels.getD j 0 == i)).map
            (fun j => sqDist (embeddings.getD j []) (centers.getD i [])))) 0)
        ("", "")), ?_, ?_, ?_⟩
  · simp only [cluster_uncertain_queries, if_neg hcond, henc, hkm]
  · simp
  · intro i hi
    obtain ⟨j0, hj0lt, hj0lab⟩ := hcover i hi
    have hj0CI : j0 ∈ (List.range labels.length).filter
        (fun j => labels.getD j 0 == i) :=
      List.mem_filter.mpr ⟨List.mem_range.mpr hj0lt, by simpa using hj0lab⟩
    have hCIpos : 0 < ((List.range labels.length).filter
        (fun j => labels.getD j 0 == i)).length :=
      List.length_pos.mpr (List.ne_nil_of_mem hj0CI)
    obtain ⟨hriCI, hmin⟩ := filter_rep_spec
      ((List.range labels.length).filter (fun j => labels.getD j 0 == i))
      (fun j => sqDist (embeddings.getD j []) (centers.getD i [])) hCIpos
    have hri2 := List.mem_filter.mp hriCI
    have hrilt := List.mem_range.mp hri2.1
    have hrilab : labels.getD
        (((List.range labels.length).filter
            (fun j => labels.getD j 0 == i)).getD
          (minIdx (((List.range labels.length).filter
              (fun j => labels.getD j 0 == i)).map
            (fun j => sqDist (embeddings.getD j []) (centers.getD i [])))) 0)
        0 = i := by
      simpa using hri2.2
    refine ⟨_, by omega, hrilab, ?_, ?_⟩
    · rw [getD_map_range n.toNat _ ("", "") i hi]
    · intro j hjq hjlab
      have hjCI : j ∈ (List.range labels.length).filter
          (fun j => labels.getD j 0 == i) :=
        List.mem_filter.mpr
          ⟨List.mem_range.mpr (by omega), by simpa using hjlab⟩
      exact hmin j hjCI

/-- Witness instantiating the C4 theorem on a two-case queue, one cluster,
and concrete successful collaborators. -/
theorem select_representatives_spec_witness :
    ∃ reps, cluster_uncertain_queries
        (fun _ => some [[0], [0]]) (fun _ _ => some ([0, 0], [[0]]))
        [("a", "x"), ("b", "y")] 1 = some reps ∧
      reps.length = (1 : ℤ).toNat ∧
      ∀ i, i < (1 : ℤ).toNat →
        ∃ ri, ri < ([("a", "x"), ("b", "y")] : List (String × String)).length ∧
          List.getD [0, 0] ri 0 = i ∧
          reps.getD i ("", "") =
            List.getD [("a", "x"), ("b", "y")] ri ("", "") ∧
          ∀ j, j < ([("a", "x"), ("b", "y")] : List (String × String)).length →
            List.getD [0, 0] j 0 = i →
            sqDist (List.getD [[0], [0]] ri []) (List.getD [[0]] i []) ≤
              sqDist (List.getD [[0], [0]] j []) (List.getD [[0]] i []) :=
  select_representatives_spec (fun _ => some [[0], [0]])
    (fun _ _ => some ([0, 0], [[0]]))
    [("a", "x"), ("b", "y")] 1 [[0], [0]] [0, 0] [[0]]
    (by decide) (by decide) rfl rfl rfl
    (by intro i hi
        have h0 : i = 0 := by omega
        subst h0
        exact ⟨0, by decide, rfl⟩)
